import Mathlib

/-!
Verification development for the Templastic import component
(src/Templastic/templastic.js).

The component is single-threaded and cooperatively scheduled: control is
handed over only at the network-retrieval await point and at the
animation-frame boundary.  Every synchronous run between two suspension
points is therefore modelled as one atomic step on an explicit state.

The two process-wide Map objects of the class (the resolved cache
TemplasticImport._cache and the in-flight dedup table
TemplasticImport._pending) are modelled as association lists keyed by the
resolved URL string.  A network retrieval is identified by the Nat counter
nextReq; fetchCount counts how many actual network retrievals have been
issued so far (by _fetchWithCache tier 3 and by prefetch).
-/

namespace Templastic

/-- Outcome of one network retrieval, following the error taxonomy of the
component: success with body text, non-ok HTTP status, transport failure,
or an intentional abort. -/
inductive Outcome where
  | success (text : String)
  | httpFailure (status : Nat)
  | transportFailure
  | aborted
deriving DecidableEq, Repr

/-- The process-wide state shared by all instances: the resolved cache,
the pending (in-flight) table, the next request identifier, and the count
of network retrievals issued so far. -/
structure CacheState where
  cache : List (String × String)
  pending : List (String × Nat)
  nextReq : Nat
  fetchCount : Nat
deriving DecidableEq, Repr

/-- Association-list lookup keyed by string, the model of Map.get / Map.has. -/
def lookupKey {β : Type} (k : String) : List (String × β) → Option β
  | [] => none
  | (a, v) :: rest => if a = k then some v else lookupKey k rest

/-- Association-list removal of a key, the model of Map.delete. -/
def eraseKey {β : Type} (k : String) : List (String × β) → List (String × β)
  | [] => []
  | (a, v) :: rest => if a = k then eraseKey k rest else (a, v) :: eraseKey k rest

/-- Association-list update of a key, the model of Map.set. -/
def setKey {β : Type} (k : String) (v : β) (l : List (String × β)) : List (String × β) :=
  (k, v) :: eraseKey k l

/-- What the synchronous prefix of _fetchWithCache (lines 227-268) hands
back to its caller: a cache hit with the cached text, a join of the
pending retrieval with request id, or a fresh retrieval just issued. -/
inductive FetchStart where
  | hit (text : String)
  | join (req : Nat)
  | fresh (req : Nat)
deriving DecidableEq, Repr

/-- Synchronous prefix of _fetchWithCache (lines 227-268).  Tier 1 returns
the cached text; tier 2 returns the shared pending retrieval; tier 3
creates an AbortController for the calling instance (ctrl becomes the new
request id), issues the network retrieval, installs the success/failure
handlers, and registers the request in the pending table. -/
def fetchWithCacheStart (url : String) (ctrl : Option Nat) (s : CacheState) :
    FetchStart × Option Nat × CacheState :=
  match lookupKey url s.cache with
  | some t => (FetchStart.hit t, ctrl, s)
  | none =>
    match lookupKey url s.pending with
    | some r => (FetchStart.join r, ctrl, s)
    | none =>
      (FetchStart.fresh s.nextReq, some s.nextReq,
        { s with pending := setKey url s.nextReq s.pending,
                 nextReq := s.nextReq + 1,
                 fetchCount := s.fetchCount + 1 })

/-- Success handler of the retrieval issued by _fetchWithCache
(lines 252-257): store the body in the cache and drop the pending entry.
Both mutations happen inside one synchronous callback, hence one step. -/
def completeSuccess (url html : String) (s : CacheState) : CacheState :=
  { s with cache := setKey url html s.cache, pending := eraseKey url s.pending }

/-- Failure handler of the retrieval issued by _fetchWithCache
(lines 258-262): drop the pending entry, leave the cache alone, rethrow. -/
def completeFailure (url : String) (s : CacheState) : CacheState :=
  { s with pending := eraseKey url s.pending }

/-- Cache eviction of one URL, the Map.delete performed by reload (line 514). -/
def evict (url : String) (s : CacheState) : CacheState :=
  { s with cache := eraseKey url s.cache }

/-- Static clearCache (lines 526-529): empty both mappings. -/
def clearCacheAll (s : CacheState) : CacheState :=
  { s with cache := [], pending := [] }

/-- What the synchronous prefix of static prefetch (lines 538-548) decides:
return the cached text, or issue its own network retrieval.  prefetch
never consults or touches the pending table. -/
inductive PrefetchStart where
  | hit (text : String)
  | fetchNew
deriving DecidableEq, Repr

/-- Synchronous prefix of static prefetch (lines 538-548). -/
def prefetchStart (url : String) (s : CacheState) : PrefetchStart × CacheState :=
  match lookupKey url s.cache with
  | some t => (PrefetchStart.hit t, s)
  | none => (PrefetchStart.fetchNew, { s with fetchCount := s.fetchCount + 1 })

/-- Success continuation of prefetch (line 550): store the body in the
cache.  The pending table is not touched. -/
def prefetchComplete (url html : String) (s : CacheState) : CacheState :=
  { s with cache := setKey url html s.cache }

/-- reload (lines 507-520) as far as the shared state is concerned: evict
the resolved URL from the cache, then re-enter the pipeline, whose fetch
stage is _fetchWithCache. -/
def reloadStart (url : String) (s : CacheState) : FetchStart × CacheState :=
  ((fetchWithCacheStart url none (evict url s)).1,
   (fetchWithCacheStart url none (evict url s)).2.2)

/-- The outcome a caller of _fetchWithCache eventually observes, given the
final outcome assignment res of the shared requests: a cache hit resolves
at once with the cached text, a join or a fresh start resolves with the
outcome of its request. -/
def observe (res : Nat → Outcome) : FetchStart → Outcome
  | FetchStart.hit t => Outcome.success t
  | FetchStart.join r => res r
  | FetchStart.fresh r => res r

/-- n instances calling _fetchWithCache for the same URL, one after the
other, before any retrieval completes (cooperative interleaving makes each
synchronous prefix atomic). -/
def fetchMany (url : String) : Nat → CacheState → List FetchStart × CacheState
  | 0, s => ([], s)
  | n + 1, s =>
    match fetchWithCacheStart url none s with
    | (st, _, s1) =>
      match fetchMany url n s1 with
      | (sts, s2) => (st :: sts, s2)

section AssocLemmas

theorem lookupKey_eraseKey_self {β : Type} (k : String) (l : List (String × β)) :
    lookupKey k (eraseKey k l) = none := by
  induction l with
  | nil => rfl
  | cons p rest ih =>
    obtain ⟨a, v⟩ := p
    by_cases h : a = k
    · simp [eraseKey, h, ih]
    · simp [eraseKey, lookupKey, h, ih]

theorem lookupKey_eraseKey_ne {β : Type} (k k2 : String) (l : List (String × β))
    (h : k ≠ k2) : lookupKey k (eraseKey k2 l) = lookupKey k l := by
  induction l with
  | nil => rfl
  | cons p rest ih =>
    obtain ⟨a, v⟩ := p
    by_cases ha : a = k2
    · have hak : ¬(a = k) := by
        intro hh
        exact h (hh ▸ ha)
      have hk2 : ¬(k2 = k) := fun hh => h hh.symm
      simp [eraseKey, lookupKey, ha, hak, hk2, ih]
    · by_cases hak : a = k
      · simp [eraseKey, lookupKey, ha, hak, h]
      · simp [eraseKey, lookupKey, ha, hak, ih]

theorem lookupKey_setKey_self {β : Type} (k : String) (v : β) (l : List (String × β)) :
    lookupKey k (setKey k v l) = some v := by
  simp [setKey, lookupKey]

theorem lookupKey_setKey_ne {β : Type} (k k2 : String) (v : β) (l : List (String × β))
    (h : k ≠ k2) : lookupKey k (setKey k2 v l) = lookupKey k l := by
  have h2 : ¬(k2 = k) := fun hh => h hh.symm
  simp [setKey, lookupKey, h2, lookupKey_eraseKey_ne k k2 l h]

end AssocLemmas

/-- Joining callers leave the state untouched: while a URL is pending and
not cached, every further _fetchWithCache call returns the same shared
request and mutates nothing. -/
theorem fetchMany_join (url : String) (r : Nat) :
    ∀ (n : Nat) (s : CacheState), lookupKey url s.cache = none →
      lookupKey url s.pending = some r →
      fetchMany url n s = (List.replicate n (FetchStart.join r), s) := by
  intro n
  induction n with
  | zero =>
    intro s hc hp
    simp [fetchMany]
  | succ m ih =>
    intro s hc hp
    have hstep : fetchWithCacheStart url none s = (FetchStart.join r, none, s) := by
      simp [fetchWithCacheStart, hc, hp]
    simp [fetchMany, hstep, ih s hc hp, List.replicate]

/-- C1: for a URL requested concurrently by n at least 2 instances before any
retrieval completes, exactly one network retrieval is issued (fetchCount
grows by one; the first caller starts request nextReq, all others join that
same request), and every requester observes the same outcome, namely the
outcome of the one shared request. -/
theorem fetch_dedup_shares_one_retrieval (url : String) (n : Nat) (s : CacheState)
    (hn : 2 ≤ n)
    (hc : lookupKey url s.cache = none)
    (hp : lookupKey url s.pending = none) :
    (fetchMany url n s).1
        = FetchStart.fresh s.nextReq :: List.replicate (n - 1) (FetchStart.join s.nextReq)
      ∧ (fetchMany url n s).2.fetchCount = s.fetchCount + 1
      ∧ ∀ res : Nat → Outcome, ∀ st ∈ (fetchMany url n s).1, observe res st = res s.nextReq := by
  obtain ⟨m, rfl⟩ : ∃ m, n = m + 1 := ⟨n - 1, by omega⟩
  have hstep : fetchWithCacheStart url none s
      = (FetchStart.fresh s.nextReq, some s.nextReq,
         { s with pending := setKey url s.nextReq s.pending,
                  nextReq := s.nextReq + 1,
                  fetchCount := s.fetchCount + 1 }) := by
    simp [fetchWithCacheStart, hc, hp]
  have h1 : lookupKey url
      ({ s with pending := setKey url s.nextReq s.pending,
                nextReq := s.nextReq + 1,
                fetchCount := s.fetchCount + 1 } : CacheState).cache = none := hc
  have h2 : lookupKey url
      ({ s with pending := setKey url s.nextReq s.pending,
                nextReq := s.nextReq + 1,
                fetchCount := s.fetchCount + 1 } : CacheState).pending = some s.nextReq :=
    lookupKey_setKey_self url s.nextReq s.pending
  have hmany := fetchMany_join url s.nextReq m _ h1 h2
  refine ⟨?_, ?_, ?_⟩
  · simp [fetchMany, hstep, hmany]
  · simp [fetchMany, hstep, hmany]
  · intro res st hst
    simp [fetchMany, hstep, hmany] at hst
    rcases hst with hst | hst
    · simp [hst, observe]
    · simp [hst.2, observe]

/-- Witness for C1 at a concrete input: two instances request the URL u on
the empty initial state; one retrieval is issued, both share request 0. -/
theorem fetch_dedup_shares_one_retrieval_witness :
    2 ≤ 2
    ∧ lookupKey "u" (⟨[], [], 0, 0⟩ : CacheState).cache = none
    ∧ lookupKey "u" (⟨[], [], 0, 0⟩ : CacheState).pending = none
    ∧ (fetchMany "u" 2 ⟨[], [], 0, 0⟩).1
        = FetchStart.fresh 0 :: List.replicate 1 (FetchStart.join 0)
    ∧ (fetchMany "u" 2 ⟨[], [], 0, 0⟩).2.fetchCount = 0 + 1
    ∧ ∀ res : Nat → Outcome, ∀ st ∈ (fetchMany "u" 2 ⟨[], [], 0, 0⟩).1,
        observe res st = res 0 := by
  have h := fetch_dedup_shares_one_retrieval "u" 2 ⟨[], [], 0, 0⟩ (by decide) rfl rfl
  exact ⟨by decide, rfl, rfl, h.1, h.2.1, h.2.2⟩

/-- The mutual-exclusivity invariant of the two process-wide mappings: no
URL is present in both the cache and the pending table. -/
def mutualExcl (s : CacheState) : Prop :=
  ∀ url : String, lookupKey url s.cache = none ∨ lookupKey url s.pending = none

/-- C2 counterexample: starting from the empty state, one instance starts a
retrieval for u through _fetchWithCache (u becomes pending), then prefetch
is called for the same u; prefetch consults only the cache, issues its own
retrieval, and its success handler stores u in the cache while u is still
pending.  At that mutation point u is present in both mappings. -/
theorem cache_pending_overlap_counterexample :
    ¬ mutualExcl (prefetchComplete "u" "h"
        (prefetchStart "u" (fetchWithCacheStart "u" none ⟨[], [], 0, 0⟩).2.2).2) := by
  intro h
  rcases h "u" with h1 | h1
  · exact absurd h1 (by decide)
  · exact absurd h1 (by decide)

/-- C2 amended: every mutation point of the two mappings except the
prefetch success handler preserves mutual exclusivity unconditionally; the
prefetch success handler preserves it only when the URL it caches has no
pending retrieval, and violates it otherwise (see the counterexample). -/
theorem mutual_exclusivity_preserved (url html : String) (ctrl : Option Nat)
    (s : CacheState) (h : mutualExcl s) :
    mutualExcl (fetchWithCacheStart url ctrl s).2.2
    ∧ mutualExcl (completeSuccess url html s)
    ∧ mutualExcl (completeFailure url s)
    ∧ mutualExcl (evict url s)
    ∧ mutualExcl (clearCacheAll s)
    ∧ mutualExcl (prefetchStart url s).2
    ∧ (lookupKey url s.pending = none → mutualExcl (prefetchComplete url html s)) := by
  refine ⟨?_, ?_, ?_, ?_, ?_, ?_, ?_⟩
  · rcases hcache : lookupKey url s.cache with _ | t
    · rcases hpend : lookupKey url s.pending with _ | r
      · intro u
        by_cases hu : u = url
        · subst hu
          exact Or.inl (by simp [fetchWithCacheStart, hcache, hpend, hcache])
        · rcases h u with h1 | h1
          · exact Or.inl (by simpa [fetchWithCacheStart, hcache, hpend] using h1)
          · refine Or.inr ?_
            simp [fetchWithCacheStart, hcache, hpend, lookupKey_setKey_ne u url _ _ hu, h1]
      · simpa [fetchWithCacheStart, hcache, hpend] using h
    · simpa [fetchWithCacheStart, hcache] using h
  · intro u
    by_cases hu : u = url
    · subst hu
      exact Or.inr (by simp [completeSuccess, lookupKey_eraseKey_self])
    · rcases h u with h1 | h1
      · exact Or.inl (by simp [completeSuccess, lookupKey_setKey_ne u url _ _ hu, h1])
      · exact Or.inr (by simp [completeSuccess, lookupKey_eraseKey_ne u url _ hu, h1])
  · intro u
    by_cases hu : u = url
    · subst hu
      exact Or.inr (by simp [completeFailure, lookupKey_eraseKey_self])
    · rcases h u with h1 | h1
      · exact Or.inl (by simpa [completeFailure] using h1)
      · exact Or.inr (by simp [completeFailure, lookupKey_eraseKey_ne u url _ hu, h1])
  · intro u
    by_cases hu : u = url
    · subst hu
      exact Or.inl (by simp [evict, lookupKey_eraseKey_self])
    · rcases h u with h1 | h1
      · exact Or.inl (by simp [evict, lookupKey_eraseKey_ne u url _ hu, h1])
      · exact Or.inr (by simpa [evict] using h1)
  · intro u
    exact Or.inl (by simp [clearCacheAll, lookupKey])
  · rcases hcache : lookupKey url s.cache with _ | t
    · simpa [prefetchStart, hcache] using h
    · simpa [prefetchStart, hcache] using h
  · intro hp u
    by_cases hu : u = url
    · subst hu
      exact Or.inr (by simpa [prefetchComplete] using hp)
    · rcases h u with h1 | h1
      · exact Or.inl (by simp [prefetchComplete, lookupKey_setKey_ne u url _ _ hu, h1])
      · exact Or.inr (by simpa [prefetchComplete] using h1)

/-- Witness for the amended C2 at a concrete input: the empty state
satisfies the invariant and every listed mutation preserves it. -/
theorem mutual_exclusivity_preserved_witness :
    mutualExcl (fetchWithCacheStart "u" none ⟨[], [], 0, 0⟩).2.2
    ∧ mutualExcl (completeSuccess "u" "h" ⟨[], [], 0, 0⟩)
    ∧ mutualExcl (completeFailure "u" ⟨[], [], 0, 0⟩)
    ∧ mutualExcl (evict "u" ⟨[], [], 0, 0⟩)
    ∧ mutualExcl (clearCacheAll ⟨[], [], 0, 0⟩)
    ∧ mutualExcl (prefetchStart "u" ⟨[], [], 0, 0⟩).2
    ∧ (lookupKey "u" (⟨[], [], 0, 0⟩ : CacheState).pending = none →
        mutualExcl (prefetchComplete "u" "h" ⟨[], [], 0, 0⟩)) :=
  mutual_exclusivity_preserved "u" "h" none ⟨[], [], 0, 0⟩ (fun _ => Or.inl rfl)

/-- C4 counterexample: with a retrieval for u currently pending (request 0)
and u cached, reload evicts the cache entry but then joins the pending
retrieval: no new network retrieval is issued (fetchCount is unchanged),
contradicting that reload always causes a new retrieval even if a
retrieval for the URL is pending. -/
theorem reload_pending_counterexample :
    (reloadStart "u" ⟨[("u", "old")], [("u", 0)], 1, 1⟩).1 = FetchStart.join 0
    ∧ (reloadStart "u" ⟨[("u", "old")], [("u", 0)], 1, 1⟩).2.fetchCount
        = (⟨[("u", "old")], [("u", 0)], 1, 1⟩ : CacheState).fetchCount := by
  constructor
  · decide
  · decide

/-- C4 amended: reload always evicts the URL from the cache first, so a new
network retrieval is issued even if the URL was cached — unless a retrieval
for that URL is currently pending, in which case reload joins the pending
retrieval and issues no new one. -/
theorem reload_refetches_unless_pending (url : String) (s : CacheState) :
    (lookupKey url s.pending = none →
        (reloadStart url s).1 = FetchStart.fresh s.nextReq
        ∧ (reloadStart url s).2.fetchCount = s.fetchCount + 1)
    ∧ (∀ r : Nat, lookupKey url s.pending = some r →
        (reloadStart url s).1 = FetchStart.join r
        ∧ (reloadStart url s).2.fetchCount = s.fetchCount) := by
  constructor
  · intro hp
    constructor
    · simp [reloadStart, fetchWithCacheStart, evict, lookupKey_eraseKey_self, hp]
    · simp [reloadStart, fetchWithCacheStart, evict, lookupKey_eraseKey_self, hp]
  · intro r hp
    constructor
    · simp [reloadStart, fetchWithCacheStart, evict, lookupKey_eraseKey_self, hp]
    · simp [reloadStart, fetchWithCacheStart, evict, lookupKey_eraseKey_self, hp]

/-- Witness for the amended C4 at a concrete input: u cached, nothing
pending; reload issues a fresh retrieval. -/
theorem reload_refetches_unless_pending_witness :
    lookupKey "u" (⟨[("u", "old")], [], 5, 3⟩ : CacheState).pending = none
    ∧ (reloadStart "u" ⟨[("u", "old")], [], 5, 3⟩).1 = FetchStart.fresh 5
    ∧ (reloadStart "u" ⟨[("u", "old")], [], 5, 3⟩).2.fetchCount = 3 + 1 := by
  have h := (reload_refetches_unless_pending "u" ⟨[("u", "old")], [], 5, 3⟩).1 rfl
  exact ⟨rfl, h.1, h.2⟩

/-- C6: when the retrieval for a pending, uncached URL fails, the failure
handler removes the pending entry and leaves the cache unchanged; every
waiter sharing request r observes the same failure outcome res r; and
because the URL is then in neither mapping, the next _fetchWithCache call
issues a fresh network retrieval. -/
theorem fetch_failure_cleanup (url : String) (r : Nat) (s : CacheState)
    (_hp : lookupKey url s.pending = some r)
    (hc : lookupKey url s.cache = none) :
    lookupKey url (completeFailure url s).pending = none
    ∧ (completeFailure url s).cache = s.cache
    ∧ (∀ res : Nat → Outcome, observe res (FetchStart.join r) = res r
        ∧ observe res (FetchStart.fresh r) = res r)
    ∧ (fetchWithCacheStart url none (completeFailure url s)).1
        = FetchStart.fresh (completeFailure url s).nextReq
    ∧ (fetchWithCacheStart url none (completeFailure url s)).2.2.fetchCount
        = s.fetchCount + 1 := by
  refine ⟨lookupKey_eraseKey_self url s.pending, rfl, ?_, ?_, ?_⟩
  · intro res
    exact ⟨rfl, rfl⟩
  · simp [fetchWithCacheStart, completeFailure, hc, lookupKey_eraseKey_self]
  · simp [fetchWithCacheStart, completeFailure, hc, lookupKey_eraseKey_self]

/-- Witness for C6 at a concrete input: request 0 for u is pending on an
empty cache and fails. -/
theorem fetch_failure_cleanup_witness :
    lookupKey "u" (⟨[], [("u", 0)], 1, 1⟩ : CacheState).pending = some 0
    ∧ lookupKey "u" (⟨[], [("u", 0)], 1, 1⟩ : CacheState).cache = none
    ∧ lookupKey "u" (completeFailure "u" ⟨[], [("u", 0)], 1, 1⟩).pending = none
    ∧ (completeFailure "u" ⟨[], [("u", 0)], 1, 1⟩).cache
        = (⟨[], [("u", 0)], 1, 1⟩ : CacheState).cache
    ∧ (fetchWithCacheStart "u" none (completeFailure "u" ⟨[], [("u", 0)], 1, 1⟩)).1
        = FetchStart.fresh (completeFailure "u" ⟨[], [("u", 0)], 1, 1⟩).nextReq
    ∧ (fetchWithCacheStart "u" none
        (completeFailure "u" ⟨[], [("u", 0)], 1, 1⟩)).2.2.fetchCount = 1 + 1 := by
  have h := fetch_failure_cleanup "u" 0 ⟨[], [("u", 0)], 1, 1⟩ rfl rfl
  exact ⟨rfl, rfl, h.1, h.2.1, h.2.2.2.1, h.2.2.2.2⟩

/-- C10: prefetch never reads or writes the pending table.  If the URL is
cached it returns the cached text with no state change and no network
retrieval; otherwise it issues its own independent retrieval even while a
_fetchWithCache retrieval for the same URL is pending (its decision does
not depend on the pending table at all), and both its start and its
success handler leave the pending table unchanged. -/
theorem prefetch_races_independently (url html : String) (s : CacheState) :
    (∀ t : String, lookupKey url s.cache = some t →
        prefetchStart url s = (PrefetchStart.hit t, s))
    ∧ (lookupKey url s.cache = none →
        (prefetchStart url s).1 = PrefetchStart.fetchNew
        ∧ (prefetchStart url s).2 = { s with fetchCount := s.fetchCount + 1 })
    ∧ (∀ p : List (String × Nat),
        (prefetchStart url { s with pending := p }).1 = (prefetchStart url s).1)
    ∧ (prefetchStart url s).2.pending = s.pending
    ∧ (prefetchComplete url html s).pending = s.pending
    ∧ (prefetchComplete url html s).cache = setKey url html s.cache := by
  refine ⟨?_, ?_, ?_, ?_, rfl, rfl⟩
  · intro t ht
    simp [prefetchStart, ht]
  · intro hc
    simp [prefetchStart, hc]
  · intro p
    rcases hcache : lookupKey url s.cache with _ | t <;>
      simp [prefetchStart, hcache]
  · rcases hcache : lookupKey url s.cache with _ | t <;>
      simp [prefetchStart, hcache]

/-- Witness for C10 at a concrete input: u is uncached but pending;
prefetch still issues its own retrieval and never touches the pending
table. -/
theorem prefetch_races_independently_witness :
    lookupKey "u" (⟨[("c", "t")], [("u", 0)], 1, 1⟩ : CacheState).cache = none
    ∧ (prefetchStart "u" ⟨[("c", "t")], [("u", 0)], 1, 1⟩).1 = PrefetchStart.fetchNew
    ∧ (prefetchStart "u" ⟨[("c", "t")], [("u", 0)], 1, 1⟩).2.pending
        = (⟨[("c", "t")], [("u", 0)], 1, 1⟩ : CacheState).pending
    ∧ (prefetchComplete "u" "h" ⟨[("c", "t")], [("u", 0)], 1, 1⟩).pending
        = (⟨[("c", "t")], [("u", 0)], 1, 1⟩ : CacheState).pending := by
  have h := prefetch_races_independently "u" "h" ⟨[("c", "t")], [("u", 0)], 1, 1⟩
  exact ⟨by decide, (h.2.1 (by decide)).1, h.2.2.2.1, h.2.2.2.2.1⟩

/-- Per-instance state (constructor, lines 45-66): the double-load guard
_hasLoaded, the connection flag _isConnected, whether an
IntersectionObserver is registered (_observer non-null), and the request id
the instance AbortController is attached to (_abortController; none when
null).  The controller is attached only by tier 3 of _fetchWithCache, so a
caller that joins a pending retrieval keeps its previous controller. -/
structure Inst where
  hasLoaded : Bool
  isConnected : Bool
  observing : Bool
  ctrl : Option Nat
deriving DecidableEq, Repr

/-- Requests whose underlying network call an _abortFetch call aborts
(lines 273-278): the request the controller is attached to, if any. -/
def abortEmit (ctrl : Option Nat) : List Nat := ctrl.toList

/-- Final outcome of request r given its real network outcome and the set
of aborted requests: an aborted request rejects with AbortError for every
waiter sharing it, otherwise the real outcome is delivered. -/
def finalOutcome (real : Outcome) (aborts : List Nat) (r : Nat) : Outcome :=
  if r ∈ aborts then Outcome.aborted else real

/-- How the resumption of _beginLoad (lines 190-214) acts on the fetch
outcome: success proceeds to _processHTML only while connected; an abort is
an intentional cancellation and returns silently before the error path;
any other failure dispatches the templastic-error signal. -/
inductive LoadResult where
  | proceed (html : String)
  | silent
  | errorSignal
deriving DecidableEq, Repr

/-- Resumption of _beginLoad after the _fetchWithCache await
(lines 190-214). -/
def handleFetchResult (connected : Bool) : Outcome → LoadResult
  | Outcome.success h => if connected then LoadResult.proceed h else LoadResult.silent
  | Outcome.aborted => LoadResult.silent
  | Outcome.httpFailure _ => LoadResult.errorSignal
  | Outcome.transportFailure => LoadResult.errorSignal

/-- Instance-aware synchronous prefix of _fetchWithCache: tier 3 attaches a
fresh AbortController bound to the new request; tiers 1 and 2 leave the
instance controller alone. -/
def instFetchStart (url : String) (i : Inst) (s : CacheState) :
    FetchStart × Inst × CacheState :=
  match fetchWithCacheStart url i.ctrl s with
  | (st, c, s2) => (st, { i with ctrl := c }, s2)

/-- C3 counterexample: instance A issues the retrieval for u (request 0,
its controller attached), instance B joins the same shared retrieval.
A then cancels its own in-flight retrieval (as disconnectedCallback
does via _abortFetch); the shared network call aborts, so B observes
AbortError instead of the real outcome (the body text), and the filter
swallows it silently: B neither injects nor errors.  A cancelling its own
retrieval thus does affect the concurrent borrower B, refuting the claim
at this input. -/
theorem issuer_abort_hits_borrower_counterexample :
    (instFetchStart "u" ⟨false, true, false, none⟩
        (instFetchStart "u" ⟨false, true, false, none⟩ ⟨[], [], 0, 0⟩).2.2).1
      = FetchStart.join 0
    ∧ observe
        (finalOutcome (Outcome.success "body")
          (abortEmit (instFetchStart "u" ⟨false, true, false, none⟩ ⟨[], [], 0, 0⟩).2.1.ctrl))
        (instFetchStart "u" ⟨false, true, false, none⟩
          (instFetchStart "u" ⟨false, true, false, none⟩ ⟨[], [], 0, 0⟩).2.2).1
      = Outcome.aborted
    ∧ Outcome.aborted ≠ Outcome.success "body"
    ∧ handleFetchResult true Outcome.aborted = LoadResult.silent := by
  refine ⟨by decide, by decide, by decide, by decide⟩

/-- C3 amended: cancellation is silent for the cancelling instance (an
abort outcome is filtered before the error-signal path, whether or not the
instance is still connected).  A borrower that joined a pending retrieval
has no controller attached to it, so its cancellation aborts nothing and
every waiter still observes the real outcome.  But when the issuing
instance cancels, the shared network call is aborted and all waiters of
that request observe the abort instead of the real outcome. -/
theorem cancellation_silent_and_shared (url : String) (s : CacheState)
    (iB : Inst) (r : Nat)
    (hp : lookupKey url s.pending = some r)
    (hc : lookupKey url s.cache = none)
    (hB : iB.ctrl = none) :
    instFetchStart url iB s = (FetchStart.join r, iB, s)
    ∧ (∀ c : Bool, handleFetchResult c Outcome.aborted = LoadResult.silent)
    ∧ (∀ (real : Outcome) (rq : Nat), finalOutcome real (abortEmit iB.ctrl) rq = real)
    ∧ (∀ real : Outcome, finalOutcome real (abortEmit (some r)) r = Outcome.aborted) := by
  refine ⟨?_, ?_, ?_, ?_⟩
  · simp [instFetchStart, fetchWithCacheStart, hp, hc]
  · intro c
    rfl
  · intro real rq
    simp [finalOutcome, abortEmit, hB]
  · intro real
    simp [finalOutcome, abortEmit]

/-- Witness for the amended C3 at a concrete input: request 0 for u is
pending; the borrower instance with no controller joins it. -/
theorem cancellation_silent_and_shared_witness :
    lookupKey "u" (⟨[], [("u", 0)], 1, 1⟩ : CacheState).pending = some 0
    ∧ instFetchStart "u" ⟨false, true, false, none⟩ ⟨[], [("u", 0)], 1, 1⟩
        = (FetchStart.join 0, ⟨false, true, false, none⟩, ⟨[], [("u", 0)], 1, 1⟩)
    ∧ (∀ c : Bool, handleFetchResult c Outcome.aborted = LoadResult.silent)
    ∧ (∀ (real : Outcome) (rq : Nat),
        finalOutcome real (abortEmit (⟨false, true, false, none⟩ : Inst).ctrl) rq = real)
    ∧ (∀ real : Outcome, finalOutcome real (abortEmit (some 0)) 0 = Outcome.aborted) := by
  have h := cancellation_silent_and_shared "u" ⟨[], [("u", 0)], 1, 1⟩
    ⟨false, true, false, none⟩ 0 rfl rfl rfl
  exact ⟨rfl, h.1, h.2.1, h.2.2.1, h.2.2.2⟩

/-- attributeChangedCallback (lines 98-112) as a function of the changed
attribute name, its old and new values, and the instance state.  It
returns the instance state at the moment _initLoading is re-entered, the
requests whose network call got aborted by the branch, and whether
_initLoading is re-run.  The src branch clears _hasLoaded and calls
_abortFetch; the loading branch only destroys the observer. -/
def attributeChangedCallback (name oldV newV : String) (i : Inst) :
    Inst × List Nat × Bool :=
  if oldV = newV then (i, [], false)
  else if name = "src" ∧ i.isConnected then
    ({ i with hasLoaded := false, ctrl := none }, abortEmit i.ctrl, true)
  else if name = "loading" ∧ i.isConnected then
    ({ i with observing := false }, [], true)
  else (i, [], false)

/-- C5 counterexample: a connected instance that has already loaded
(hasLoaded true) and has an in-flight retrieval (controller on request 0)
receives a loading attribute change.  The loading branch does not clear
the hasLoaded guard and aborts nothing: the trigger state machine is not
reset before re-evaluating, refuting the claim for the loading-change
case. -/
theorem loading_change_no_reset_counterexample :
    attributeChangedCallback "loading" "lazy" "eager" ⟨true, true, true, some 0⟩
      = (⟨true, true, false, some 0⟩, [], true)
    ∧ (attributeChangedCallback "loading" "lazy" "eager"
        ⟨true, true, true, some 0⟩).1.hasLoaded = true
    ∧ (attributeChangedCallback "loading" "lazy" "eager"
        ⟨true, true, true, some 0⟩).2.1 = [] := by
  refine ⟨by decide, by decide, by decide⟩

/-- C5 amended: for a connected instance and an actual value change, a src
change clears the hasLoaded guard and aborts the in-flight retrieval
before re-running _initLoading, but a loading change only tears down the
visibility observer and re-runs _initLoading: it leaves the hasLoaded
guard and the in-flight retrieval untouched. -/
theorem attribute_change_reset_asymmetry (oldV newV : String) (i : Inst)
    (hne : oldV ≠ newV) (hconn : i.isConnected = true) :
    attributeChangedCallback "src" oldV newV i
        = ({ i with hasLoaded := false, ctrl := none }, abortEmit i.ctrl, true)
    ∧ attributeChangedCallback "loading" oldV newV i
        = ({ i with observing := false }, [], true)
    ∧ (attributeChangedCallback "loading" oldV newV i).1.hasLoaded = i.hasLoaded
    ∧ (attributeChangedCallback "loading" oldV newV i).1.ctrl = i.ctrl
    ∧ (attributeChangedCallback "loading" oldV newV i).2.1 = [] := by
  have hsrc : attributeChangedCallback "src" oldV newV i
      = ({ i with hasLoaded := false, ctrl := none }, abortEmit i.ctrl, true) := by
    simp [attributeChangedCallback, hne, hconn]
  have hload : attributeChangedCallback "loading" oldV newV i
      = ({ i with observing := false }, [], true) := by
    simp [attributeChangedCallback, hne, hconn]
  refine ⟨hsrc, hload, ?_, ?_, ?_⟩ <;> simp [hload]

/-- Witness for the amended C5 at a concrete input. -/
theorem attribute_change_reset_asymmetry_witness :
    "lazy" ≠ "eager"
    ∧ (⟨true, true, true, some 0⟩ : Inst).isConnected = true
    ∧ attributeChangedCallback "src" "lazy" "eager" ⟨true, true, true, some 0⟩
        = (⟨false, true, true, none⟩, abortEmit (some 0), true)
    ∧ attributeChangedCallback "loading" "lazy" "eager" ⟨true, true, true, some 0⟩
        = (⟨true, true, false, some 0⟩, [], true)
    ∧ (attributeChangedCallback "loading" "lazy" "eager"
        ⟨true, true, true, some 0⟩).1.hasLoaded = true := by
  have h := attribute_change_reset_asymmetry "lazy" "eager" ⟨true, true, true, some 0⟩
    (by decide) rfl
  exact ⟨by decide, rfl, h.1, h.2.1, by rw [h.2.1]⟩

/-- Connection lifecycle events an instance can receive while one of its
awaits is outstanding. -/
inductive InstEvent where
  | disconnect
  | connect
deriving DecidableEq, Repr

/-- Effect of a lifecycle event on the instance state:
disconnectedCallback (lines 90-94) clears the connection flag, destroys
the observer and calls _abortFetch; connectedCallback (lines 70-86) sets
the connection flag (its further work is re-arming, which does not touch
the flag again). -/
def applyEvent (i : Inst) : InstEvent → Inst
  | InstEvent.disconnect => { i with isConnected := false, observing := false, ctrl := none }
  | InstEvent.connect => { i with isConnected := true }

/-- Fold of lifecycle events over the instance state. -/
def applyEvents (i : Inst) (evs : List InstEvent) : Inst :=
  evs.foldl applyEvent i

/-- Guard at the resumption of _beginLoad (line 193): the fetched body is
handed to _processHTML only if the instance is still connected; a
disconnected instance returns and nothing further happens for this load
(no frame callback is even scheduled, hence no write and no loaded
signal). -/
def resumeAfterFetch (i : Inst) (html : String) : Option String :=
  if i.isConnected then some html else none

/-- Guard in the requestAnimationFrame callback scheduled by _processHTML
(lines 352-361): _injectIntoShadow runs (one shadow-subtree write followed
by the templastic-loaded signal) only if the instance is still connected
at the frame boundary; otherwise the write is skipped and no signal
fires. -/
def frameCallback (i : Inst) (payload : String) : Option String :=
  if i.isConnected then some payload else none

/-- Once disconnected, an instance stays disconnected through any event
sequence that contains no connect event. -/
theorem stays_disconnected (evs : List InstEvent) (i : Inst)
    (hi : i.isConnected = false) (hnc : InstEvent.connect ∉ evs) :
    (applyEvents i evs).isConnected = false := by
  induction evs generalizing i with
  | nil => exact hi
  | cons e rest ih =>
    have hne : e ≠ InstEvent.connect := fun h => hnc (h ▸ List.mem_cons_self e rest)
    have hrest : InstEvent.connect ∉ rest := fun h => hnc (List.mem_cons_of_mem e h)
    cases e with
    | disconnect => exact ih _ rfl hrest
    | connect => exact absurd rfl hne

/-- C7: an instance disconnected while its retrieval (or its frame-boundary
wait) is outstanding, and not reconnected before the await resumes, never
hands the fetched body to _processHTML and never performs the
shadow-subtree write, hence never emits the loaded signal: both the
post-fetch guard and the frame-boundary guard see a disconnected
instance. -/
theorem disconnected_never_injects (i : Inst) (evs1 evs2 : List InstEvent)
    (html : String) (hnc : InstEvent.connect ∉ evs2) :
    resumeAfterFetch
        (applyEvents i (evs1 ++ InstEvent.disconnect :: evs2)) html = none
    ∧ frameCallback
        (applyEvents i (evs1 ++ InstEvent.disconnect :: evs2)) html = none := by
  have hsplit : applyEvents i (evs1 ++ InstEvent.disconnect :: evs2)
      = applyEvents (applyEvent (applyEvents i evs1) InstEvent.disconnect) evs2 := by
    simp [applyEvents, List.foldl_append, List.foldl_cons]
  have hdis : (applyEvent (applyEvents i evs1) InstEvent.disconnect).isConnected = false := rfl
  have hfinal : (applyEvents i (evs1 ++ InstEvent.disconnect :: evs2)).isConnected = false := by
    rw [hsplit]
    exact stays_disconnected evs2 _ hdis hnc
  constructor
  · simp [resumeAfterFetch, hfinal]
  · simp [frameCallback, hfinal]

/-- Witness for C7 at a concrete input: a connected instance is
disconnected while waiting; when the retrieval resolves, neither guard
lets the write or the signal happen. -/
theorem disconnected_never_injects_witness :
    InstEvent.connect ∉ ([] : List InstEvent)
    ∧ resumeAfterFetch
        (applyEvents ⟨true, true, false, some 0⟩ ([] ++ InstEvent.disconnect :: []))
        "body" = none
    ∧ frameCallback
        (applyEvents ⟨true, true, false, some 0⟩ ([] ++ InstEvent.disconnect :: []))
        "body" = none := by
  have h := disconnected_never_injects ⟨true, true, false, some 0⟩ [] [] "body"
    (by simp)
  exact ⟨by simp, h.1, h.2⟩

/-- Whitespace test on characters, the model of the \s character class. -/
def isWsChar (c : Char) : Bool := c.isWhitespace

/-- Model of String.prototype.trim on character lists: drop whitespace
from both ends. -/
def jsTrim (l : List Char) : List Char :=
  ((l.dropWhile isWsChar).reverse.dropWhile isWsChar).reverse

/-- Parsed DOM node, the model of the tree the shared DOMParser produces
from the fetched markup: an element with tag name, attribute list and
child list, or a text node. -/
inductive DomNode where
  | elem (tag : String) (attrs : List (String × String)) (children : List DomNode)
  | text (s : String)

/-- Element test, distinguishing the children collection (element children
only) from childNodes. -/
def DomNode.isElem : DomNode → Bool
  | DomNode.elem _ _ _ => true
  | DomNode.text _ => false

/-- First entry of the element-children collection of a node list, the
model of body.children[0]. -/
def firstElemChild (ns : List DomNode) : Option DomNode :=
  (ns.filter DomNode.isElem).head?

/-- In-place removal of the style attribute from the first element child
of the list (rootElement.removeAttribute at line 341 mutates the parsed
tree). -/
def removeStyleFirstElem : List DomNode → List DomNode
  | [] => []
  | DomNode.text s :: rest => DomNode.text s :: removeStyleFirstElem rest
  | DomNode.elem t a k :: rest => DomNode.elem t (eraseKey "style" a) k :: rest

/-- Step 3c of _processHTML (lines 332-343): look at the first element
child of the parsed body only; if it carries a style attribute that is
non-empty after trimming, record the declaration as hostInlineStyle and
remove the attribute from that element; otherwise leave everything
alone. -/
def extractHostStyle (bodyChildren : List DomNode) : Option String × List DomNode :=
  match firstElemChild bodyChildren with
  | none => (none, bodyChildren)
  | some (DomNode.text _) => (none, bodyChildren)
  | some (DomNode.elem _ attrs _) =>
    match lookupKey "style" attrs with
    | none => (none, bodyChildren)
    | some sVal =>
      if jsTrim sVal.toList = [] then (none, bodyChildren)
      else (some sVal, removeStyleFirstElem bodyChildren)

/-- Serialization of attributes for innerHTML output. -/
def serializeAttrs : List (String × String) → String
  | [] => ""
  | (n, v) :: rest => " " ++ n ++ "=\"" ++ v ++ "\"" ++ serializeAttrs rest

mutual

/-- Serialization of one node for innerHTML output. -/
def serializeNode : DomNode → String
  | DomNode.text s => s
  | DomNode.elem tag attrs children =>
      "<" ++ tag ++ serializeAttrs attrs ++ ">" ++ serializeNodes children
        ++ "</" ++ tag ++ ">"

/-- Serialization of a node list, the model of body.innerHTML over the
body children. -/
def serializeNodes : List DomNode → String
  | [] => ""
  | n :: rest => serializeNode n ++ serializeNodes rest

end

/-- Removing the style attribute commutes with skipping a prefix of
non-element nodes: the mutation hits exactly the first element child. -/
theorem removeStyleFirstElem_append (pre : List DomNode)
    (hpre : ∀ n ∈ pre, DomNode.isElem n = false)
    (tag : String) (attrs : List (String × String)) (kids post : List DomNode) :
    removeStyleFirstElem (pre ++ DomNode.elem tag attrs kids :: post)
      = pre ++ DomNode.elem tag (eraseKey "style" attrs) kids :: post := by
  induction pre with
  | nil => rfl
  | cons n rest ih =>
    have hn : DomNode.isElem n = false := hpre n (List.mem_cons_self n rest)
    have hrest : ∀ m ∈ rest, DomNode.isElem m = false :=
      fun m hm => hpre m (List.mem_cons_of_mem n hm)
    cases n with
    | elem t a k => simp [DomNode.isElem] at hn
    | text s => simp [removeStyleFirstElem, ih hrest]

/-- C8: if the parsed body's first top-level child element (the first
element child; preceding text nodes are not part of the children
collection) carries a style attribute whose value is non-empty after
trimming, the transform records that declaration as hostInlineStyle and
removes the style attribute from exactly that element, leaving every
other node (preceding non-element nodes, following siblings and the
element's own subtree) unchanged; the transformed root then has no style
attribute. -/
theorem host_inline_style_extracted (pre post kids : List DomNode)
    (tag sVal : String) (attrs : List (String × String))
    (hpre : ∀ n ∈ pre, DomNode.isElem n = false)
    (hstyle : lookupKey "style" attrs = some sVal)
    (htrim : jsTrim sVal.toList ≠ []) :
    extractHostStyle (pre ++ DomNode.elem tag attrs kids :: post)
        = (some sVal, pre ++ DomNode.elem tag (eraseKey "style" attrs) kids :: post)
    ∧ lookupKey "style" (eraseKey "style" attrs) = none := by
  have hfilterpre : pre.filter DomNode.isElem = [] := by
    rw [List.filter_eq_nil_iff]
    intro a ha
    simp [hpre a ha]
  have hfirst : firstElemChild (pre ++ DomNode.elem tag attrs kids :: post)
      = some (DomNode.elem tag attrs kids) := by
    simp [firstElemChild, List.filter_append, hfilterpre, List.filter_cons, DomNode.isElem]
  have htrim2 : ¬ jsTrim sVal.data = [] := htrim
  refine ⟨?_, lookupKey_eraseKey_self "style" attrs⟩
  simp [extractHostStyle, hfirst, hstyle, htrim2,
    removeStyleFirstElem_append pre hpre tag attrs kids post]

/-- Witness for C8 at the concrete input of the claim: the parsed body of
the markup with one div root styled color:red; hostInlineStyle is
color:red and the serialized content markup carries no style attribute on
its root. -/
theorem host_inline_style_extracted_witness :
    jsTrim "color:red".toList ≠ []
    ∧ extractHostStyle
        [DomNode.elem "div" [("style", "color:red")]
          [DomNode.elem "p" [] [DomNode.text "hi"]]]
        = (some "color:red",
           [DomNode.elem "div" [] [DomNode.elem "p" [] [DomNode.text "hi"]]])
    ∧ lookupKey "style" (eraseKey "style" [("style", "color:red")]) = none
    ∧ serializeNodes
        [DomNode.elem "div" [] [DomNode.elem "p" [] [DomNode.text "hi"]]]
        = "<div><p>hi</p></div>" := by
  have h := host_inline_style_extracted [] []
    [DomNode.elem "p" [] [DomNode.text "hi"]] "div" "color:red"
    [("style", "color:red")] (by intro n hn; simp at hn) rfl (by decide)
  refine ⟨by decide, ?_, h.2, by rfl⟩
  have h1 := h.1
  simpa [eraseKey] using h1

/-- Model of String.prototype.split with a single separator character:
value.split on a comma.  The result always has at least one field; empty
fields arise between adjacent separators. -/
def splitOnChar (c : Char) : List Char → List (List Char)
  | [] => [[]]
  | x :: xs =>
    if x = c then [] :: splitOnChar c xs
    else
      match splitOnChar c xs with
      | [] => [[x]]
      | f :: rest => (x :: f) :: rest

/-- Model of String.prototype.split on the whitespace-run pattern:
maximal whitespace runs separate the fields; a leading or trailing run
contributes an empty field, and the empty string yields one empty
field. -/
def jsSplitWs : List Char → List (List Char)
  | [] => [[]]
  | [x] => if isWsChar x then [[], []] else [[x]]
  | x :: y :: rest =>
    if isWsChar x then
      (if isWsChar y then jsSplitWs (y :: rest) else [] :: jsSplitWs (y :: rest))
    else
      match jsSplitWs (y :: rest) with
      | [] => [[x]]
      | f :: tail => (x :: f) :: tail

/-- Model of Array.prototype.join with a separator. -/
def joinSep (sep : List Char) : List (List Char) → List Char
  | [] => []
  | [x] => x
  | x :: y :: rest => x ++ sep ++ joinSep sep (y :: rest)

/-- Substring test used by the URL model to recognize absolute
references. -/
def containsSeq (pat : List Char) : List Char → Bool
  | [] => pat.isEmpty
  | x :: xs => List.isPrefixOf pat (x :: xs) || containsSeq pat xs

/-- Splits a character list around the first occurrence of a pattern. -/
def splitFirstSeq (pat : List Char) : List Char → Option (List Char × List Char)
  | [] => if pat.isEmpty then some ([], []) else none
  | x :: xs =>
    if List.isPrefixOf pat (x :: xs) then some ([], (x :: xs).drop pat.length)
    else
      match splitFirstSeq pat xs with
      | some (a, b) => some (x :: a, b)
      | none => none

/-- Scheme-and-host prefix of a hierarchical URL (model of the origin
used for root-relative references). -/
def originOf (base : List Char) : List Char :=
  match splitFirstSeq (':' :: '/' :: '/' :: []) base with
  | some (pre, rest) => pre ++ ':' :: '/' :: '/' :: rest.takeWhile (fun c => c != '/')
  | none => base

/-- Directory prefix of a hierarchical URL: everything up to and including
the last slash. -/
def dirOf (base : List Char) : List Char :=
  (base.reverse.dropWhile (fun c => c != '/')).reverse

/-- Model of the WHATWG URL primitive new URL(ref, base).href, restricted
to hierarchical URLs without dot-segment, query or fragment
normalization: an absolute reference (one containing a scheme separator)
is kept, a root-relative reference is resolved against the origin of the
base, and any other reference is resolved against the directory of the
base. -/
def resolveURLRef (base ref : List Char) : List Char :=
  if containsSeq (':' :: '/' :: '/' :: []) ref then ref
  else
    match ref with
    | '/' :: rest => originOf base ++ '/' :: rest
    | _ => dirOf base ++ ref

/-- One srcset entry rewrite (lines 391-394): trim the entry, split it on
whitespace runs, resolve the first part (the URL) against the base, and
join the parts back with single spaces, preserving the descriptors. -/
def rewriteSrcsetEntry (base : List Char) (entry : List Char) : List Char :=
  match jsSplitWs (jsTrim entry) with
  | [] => []
  | p :: rest => joinSep [' '] (resolveURLRef base p :: rest)

/-- The srcset branch of _resolveRelativeURLs (lines 387-397): split the
attribute value on commas, rewrite each entry, and join the entries back
with a comma and a space. -/
def resolveSrcsetValue (base value : List Char) : List Char :=
  joinSep [',', ' '] ((splitOnChar ',' value).map (rewriteSrcsetEntry base))

/-- String-level wrapper of the srcset value rewrite. -/
def resolveSrcset (base value : String) : String :=
  String.mk (resolveSrcsetValue base.toList value.toList)

/-- Per-element attribute rewrite of _resolveRelativeURLs (lines 381-404):
empty values, data URLs and pure fragment references are skipped; the
srcset attribute uses the comma-separated entry format; every other
navigable attribute is resolved directly. -/
def resolveAttrValue (attr : String) (base value : List Char) : List Char :=
  if value = [] ∨ List.isPrefixOf ('d' :: 'a' :: 't' :: 'a' :: ':' :: []) value
      ∨ List.isPrefixOf ['#'] value then value
  else if attr = "srcset" then resolveSrcsetValue base value
  else resolveURLRef base value

/-- A srcset candidate entry: a URL and an optional descriptor. -/
structure SrcsetEntry where
  url : List Char
  desc : Option (List Char)
deriving DecidableEq, Repr

/-- Rendering of one entry in attribute syntax: the URL, then one space
and the descriptor when present. -/
def renderEntry (e : SrcsetEntry) : List Char :=
  match e.desc with
  | none => e.url
  | some d => e.url ++ ' ' :: d

/-- Rendering of a whole srcset attribute value: entries joined by a comma
and a space. -/
def renderSrcset (es : List SrcsetEntry) : List Char :=
  joinSep [',', ' '] (es.map renderEntry)

/-- Resolution of one entry: only the URL portion changes. -/
def resolveEntry (base : List Char) (e : SrcsetEntry) : SrcsetEntry :=
  ⟨resolveURLRef base e.url, e.desc⟩

/-- A well-formed srcset token: non-empty, and free of whitespace and
commas. -/
def plainToken (l : List Char) : Bool :=
  !l.isEmpty && l.all (fun c => !isWsChar c && c != ',')

/-- A well-formed entry: the URL is a plain token and so is the
descriptor when present. -/
def goodEntry (e : SrcsetEntry) : Bool :=
  plainToken e.url &&
    (match e.desc with
     | none => true
     | some d => plainToken d)

theorem plainToken_spec (l : List Char) (h : plainToken l = true) :
    l ≠ [] ∧ (∀ c ∈ l, isWsChar c = false) ∧ (∀ c ∈ l, c ≠ ',') := by
  simp only [plainToken, Bool.and_eq_true, List.all_eq_true] at h
  obtain ⟨h1, h2⟩ := h
  refine ⟨by simpa using h1, ?_, ?_⟩
  · intro c hc
    have := h2 c hc
    simp only [Bool.and_eq_true] at this
    simpa using this.1
  · intro c hc
    have := h2 c hc
    simp only [Bool.and_eq_true] at this
    simpa using this.2

theorem jsTrim_noWs (l : List Char) (hw : ∀ c ∈ l, isWsChar c = false) :
    jsTrim l = l := by
  have h1 : List.dropWhile isWsChar l = l := by
    cases l with
    | nil => rfl
    | cons x xs =>
      rw [List.dropWhile_cons]
      simp [hw x (List.mem_cons_self x xs)]
  have h2 : List.dropWhile isWsChar l.reverse = l.reverse := by
    cases hr : l.reverse with
    | nil => rfl
    | cons y ys =>
      have hy : y ∈ l := by
        rw [← List.mem_reverse, hr]
        exact List.mem_cons_self y ys
      rw [List.dropWhile_cons]
      simp [hw y hy]
  unfold jsTrim
  rw [h1, h2, List.reverse_reverse]

theorem jsTrim_pair (u d : List Char) (hu : u ≠ []) (hd : d ≠ [])
    (hwu : ∀ c ∈ u, isWsChar c = false) (hwd : ∀ c ∈ d, isWsChar c = false) :
    jsTrim (u ++ ' ' :: d) = u ++ ' ' :: d := by
  have h1 : List.dropWhile isWsChar (u ++ ' ' :: d) = u ++ ' ' :: d := by
    obtain ⟨x, u2, rfl⟩ := List.exists_cons_of_ne_nil hu
    rw [List.cons_append, List.dropWhile_cons]
    simp [hwu x (List.mem_cons_self x u2)]
  have hdr : d.reverse ≠ [] := by
    simpa using hd
  obtain ⟨y, dr, hy2⟩ := List.exists_cons_of_ne_nil hdr
  have hy : y ∈ d := by
    rw [← List.mem_reverse, hy2]
    exact List.mem_cons_self y dr
  have hrev : (u ++ ' ' :: d).reverse = y :: (dr ++ ' ' :: u.reverse) := by
    rw [List.reverse_append, List.reverse_cons, hy2]
    simp
  have h2 : List.dropWhile isWsChar (u ++ ' ' :: d).reverse = (u ++ ' ' :: d).reverse := by
    rw [hrev, List.dropWhile_cons]
    simp [hwd y hy]
  unfold jsTrim
  rw [h1, h2, List.reverse_reverse]

theorem jsTrim_cons_space (x : List Char) : jsTrim (' ' :: x) = jsTrim x := by
  unfold jsTrim
  rw [List.dropWhile_cons]
  simp [isWsChar]

theorem jsSplitWs_noWs : ∀ u : List Char, u ≠ [] →
    (∀ c ∈ u, isWsChar c = false) → jsSplitWs u = [u] := by
  intro u
  induction u with
  | nil =>
    intro h _
    exact absurd rfl h
  | cons x xs ih =>
    intro _ hw
    have hx : isWsChar x = false := hw x (List.mem_cons_self x xs)
    cases xs with
    | nil => simp [jsSplitWs, hx]
    | cons y ys =>
      have hrest : jsSplitWs (y :: ys) = [y :: ys] :=
        ih (by simp) (fun c hc => hw c (List.mem_cons_of_mem x hc))
      simp [jsSplitWs, hx, hrest]

theorem jsSplitWs_pair : ∀ u d : List Char, u ≠ [] → d ≠ [] →
    (∀ c ∈ u, isWsChar c = false) → (∀ c ∈ d, isWsChar c = false) →
    jsSplitWs (u ++ ' ' :: d) = [u, d] := by
  intro u
  induction u with
  | nil =>
    intro d h _ _ _
    exact absurd rfl h
  | cons x xs ih =>
    intro d _ hd hwu hwd
    have hx : isWsChar x = false := hwu x (List.mem_cons_self x xs)
    have hsp : isWsChar ' ' = true := by decide
    cases xs with
    | nil =>
      obtain ⟨e, d2, rfl⟩ := List.exists_cons_of_ne_nil hd
      have he : isWsChar e = false := hwd e (List.mem_cons_self e d2)
      have hjd : jsSplitWs (e :: d2) = [e :: d2] :=
        jsSplitWs_noWs (e :: d2) (by simp) hwd
      simp [jsSplitWs, hx, he, hsp, hjd]
    | cons z zs =>
      have hih : jsSplitWs ((z :: zs) ++ ' ' :: d) = [z :: zs, d] :=
        ih d (by simp) hd (fun c hc => hwu c (List.mem_cons_of_mem x hc)) hwd
      rw [List.cons_append] at hih ⊢
      simp [jsSplitWs, hx, hih]

theorem splitOnChar_no_sep (c : Char) : ∀ l : List Char,
    (∀ a ∈ l, a ≠ c) → splitOnChar c l = [l] := by
  intro l
  induction l with
  | nil =>
    intro _
    rfl
  | cons x xs ih =>
    intro h
    have hx : ¬(x = c) := h x (List.mem_cons_self x xs)
    have hxs := ih (fun a ha => h a (List.mem_cons_of_mem x ha))
    simp [splitOnChar, hx, hxs]

theorem splitOnChar_append (c : Char) : ∀ l rest : List Char,
    (∀ a ∈ l, a ≠ c) →
    splitOnChar c (l ++ c :: rest) = l :: splitOnChar c rest := by
  intro l
  induction l with
  | nil =>
    intro rest _
    simp [splitOnChar]
  | cons x xs ih =>
    intro rest h
    have hx : ¬(x = c) := h x (List.mem_cons_self x xs)
    have hxs := ih rest (fun a ha => h a (List.mem_cons_of_mem x ha))
    simp [splitOnChar, hx, hxs]

theorem renderEntry_no_comma (e : SrcsetEntry) (he : goodEntry e = true) :
    ∀ a ∈ renderEntry e, a ≠ ',' := by
  obtain ⟨u, dopt⟩ := e
  simp only [goodEntry, Bool.and_eq_true] at he
  obtain ⟨hu, hdo⟩ := he
  have hus := plainToken_spec u hu
  cases dopt with
  | none =>
    intro a ha
    exact hus.2.2 a ha
  | some d =>
    have hds := plainToken_spec d hdo
    intro a ha
    simp only [renderEntry, List.mem_append, List.mem_cons] at ha
    rcases ha with ha | ha | ha
    · exact hus.2.2 a ha
    · simp [ha]
    · exact hds.2.2 a ha

theorem rewriteEntry_renders (base : List Char) (e : SrcsetEntry)
    (he : goodEntry e = true) :
    rewriteSrcsetEntry base (renderEntry e) = renderEntry (resolveEntry base e) := by
  obtain ⟨u, dopt⟩ := e
  simp only [goodEntry, Bool.and_eq_true] at he
  obtain ⟨hu, hdo⟩ := he
  have hus := plainToken_spec u hu
  cases dopt with
  | none =>
    have ht : jsTrim u = u := jsTrim_noWs u hus.2.1
    have hs : jsSplitWs u = [u] := jsSplitWs_noWs u hus.1 hus.2.1
    simp [rewriteSrcsetEntry, renderEntry, resolveEntry, ht, hs, joinSep]
  | some d =>
    have hds := plainToken_spec d hdo
    have ht : jsTrim (u ++ ' ' :: d) = u ++ ' ' :: d :=
      jsTrim_pair u d hus.1 hds.1 hus.2.1 hds.2.1
    have hs : jsSplitWs (u ++ ' ' :: d) = [u, d] :=
      jsSplitWs_pair u d hus.1 hds.1 hus.2.1 hds.2.1
    simp [rewriteSrcsetEntry, renderEntry, resolveEntry, ht, hs, joinSep]

theorem rewriteEntry_space (base x : List Char) :
    rewriteSrcsetEntry base (' ' :: x) = rewriteSrcsetEntry base x := by
  simp [rewriteSrcsetEntry, jsTrim_cons_space]

theorem split_srcset_fields : ∀ es : List SrcsetEntry,
    (∀ e ∈ es, goodEntry e = true) → es ≠ [] →
    splitOnChar ',' (' ' :: renderSrcset es)
      = es.map (fun e => ' ' :: renderEntry e) := by
  intro es
  induction es with
  | nil =>
    intro _ h
    exact absurd rfl h
  | cons e rest ih =>
    intro hgood _
    have hce : ∀ a ∈ (' ' :: renderEntry e), a ≠ ',' := by
      intro a ha
      rcases List.mem_cons.mp ha with ha | ha
      · simp [ha]
      · exact renderEntry_no_comma e (hgood e (List.mem_cons_self e rest)) a ha
    cases rest with
    | nil =>
      have := splitOnChar_no_sep ',' (' ' :: renderEntry e) hce
      simpa [renderSrcset, joinSep] using this
    | cons e2 rest2 =>
      have hrest : ∀ x ∈ (e2 :: rest2), goodEntry x = true :=
        fun x hx => hgood x (List.mem_cons_of_mem e hx)
      have hih := ih hrest (by simp)
      have hform : ' ' :: renderSrcset (e :: e2 :: rest2)
          = (' ' :: renderEntry e) ++ ',' :: (' ' :: renderSrcset (e2 :: rest2)) := by
        simp [renderSrcset, joinSep]
      rw [hform, splitOnChar_append ',' _ _ hce, hih]
      simp

theorem split_srcset_head (e : SrcsetEntry) (rest : List SrcsetEntry)
    (hgood : ∀ x ∈ (e :: rest), goodEntry x = true) :
    splitOnChar ',' (renderSrcset (e :: rest))
      = renderEntry e :: rest.map (fun x => ' ' :: renderEntry x) := by
  have hce : ∀ a ∈ renderEntry e, a ≠ ',' :=
    renderEntry_no_comma e (hgood e (List.mem_cons_self e rest))
  cases rest with
  | nil =>
    have := splitOnChar_no_sep ',' (renderEntry e) hce
    simpa [renderSrcset, joinSep] using this
  | cons e2 rest2 =>
    have hrest : ∀ x ∈ (e2 :: rest2), goodEntry x = true :=
      fun x hx => hgood x (List.mem_cons_of_mem e hx)
    have hform : renderSrcset (e :: e2 :: rest2)
        = renderEntry e ++ ',' :: (' ' :: renderSrcset (e2 :: rest2)) := by
      simp [renderSrcset, joinSep]
    rw [hform, splitOnChar_append ',' _ _ hce,
      split_srcset_fields (e2 :: rest2) hrest (by simp)]

/-- C9: for a srcset attribute value made of comma-separated well-formed
entries (each a URL optionally followed by one descriptor, both free of
whitespace and commas), the srcset branch of _resolveRelativeURLs rewrites
exactly the URL portion of every entry to its resolution against the base
URL, preserving each descriptor and the order of the entries. -/
theorem srcset_rewrites_urls_only (base : List Char) (es : List SrcsetEntry)
    (hne : es ≠ []) (hgood : ∀ e ∈ es, goodEntry e = true) :
    resolveSrcsetValue base (renderSrcset es)
      = renderSrcset (es.map (resolveEntry base)) := by
  obtain ⟨e, es2, rfl⟩ := List.exists_cons_of_ne_nil hne
  unfold resolveSrcsetValue
  rw [split_srcset_head e es2 hgood]
  simp only [List.map_cons, List.map_map]
  rw [rewriteEntry_renders base e (hgood e (List.mem_cons_self e es2))]
  have hmap : es2.map (rewriteSrcsetEntry base ∘ fun x => ' ' :: renderEntry x)
      = es2.map (fun x => renderEntry (resolveEntry base x)) := by
    refine List.map_congr_left ?_
    intro x hx
    have : rewriteSrcsetEntry base (' ' :: renderEntry x)
        = renderEntry (resolveEntry base x) := by
      rw [rewriteEntry_space, rewriteEntry_renders base x (hgood x (List.mem_cons_of_mem e hx))]
    simpa using this
  rw [hmap]
  simp [renderSrcset, List.map_map]
  rfl

/-- Witness for C9 at the concrete input of the claim: the value
img.png 1x, img2.png 2x at base https://x/dir/page.html resolves to
https://x/dir/img.png 1x, https://x/dir/img2.png 2x with descriptors and
order preserved. -/
theorem srcset_rewrites_urls_only_witness :
    ([⟨"img.png".toList, some "1x".toList⟩,
      ⟨"img2.png".toList, some "2x".toList⟩] : List SrcsetEntry) ≠ []
    ∧ (∀ e ∈ ([⟨"img.png".toList, some "1x".toList⟩,
        ⟨"img2.png".toList, some "2x".toList⟩] : List SrcsetEntry),
        goodEntry e = true)
    ∧ renderSrcset [⟨"img.png".toList, some "1x".toList⟩,
        ⟨"img2.png".toList, some "2x".toList⟩]
        = "img.png 1x, img2.png 2x".toList
    ∧ resolveSrcsetValue "https://x/dir/page.html".toList
        (renderSrcset [⟨"img.png".toList, some "1x".toList⟩,
          ⟨"img2.png".toList, some "2x".toList⟩])
        = renderSrcset
            ([⟨"img.png".toList, some "1x".toList⟩,
              ⟨"img2.png".toList, some "2x".toList⟩].map
              (resolveEntry "https://x/dir/page.html".toList))
    ∧ renderSrcset
        ([⟨"img.png".toList, some "1x".toList⟩,
          ⟨"img2.png".toList, some "2x".toList⟩].map
          (resolveEntry "https://x/dir/page.html".toList))
        = "https://x/dir/img.png 1x, https://x/dir/img2.png 2x".toList
    ∧ resolveSrcset "https://x/dir/page.html" "img.png 1x, img2.png 2x"
        = "https://x/dir/img.png 1x, https://x/dir/img2.png 2x" := by
  refine ⟨by decide, by decide, by decide, ?_, by decide, by decide⟩
  exact srcset_rewrites_urls_only "https://x/dir/page.html".toList
    [⟨"img.png".toList, some "1x".toList⟩, ⟨"img2.png".toList, some "2x".toList⟩]
    (by decide) (by decide)

end Templastic
